import Mathlib

/-!
Verification of the LS-8 CPU emulator (`src/ls8/cpu.py`).

The machine state (`CPU`), the ALU (`alu`), one iteration of the
fetch-decode-execute loop (`stepBody`) and the driving loop (`runLoop`)
are shallow embeddings of the corresponding Python code.  Python's
unbounded integers are modelled by `Int`; Python's floor division,
floor modulus and two's-complement bitwise operators are `Int.fdiv`,
`Int.fmod` and `Int.land` / `Int.lor` / `Int.xor` / `Int.lnot`.
Python list subscripts (negative indices wrap once, anything further
out raises `IndexError`) are modelled by `pyIndex`; every raised
exception or `sys.exit` is a `Fault` carrying the machine state at the
moment it was raised.  Text printed to standard output is collected in
the `output` field of the state.
-/

/-- Opcode constants, from the top of `cpu.py`. -/
def HLT : Int := 0b00000001

def LDI : Int := 0b10000010

def PRN : Int := 0b01000111

def ADD : Int := 0b10100000

def MUL : Int := 0b10100010

def POP : Int := 0b01000110

def PUSH : Int := 0b01000101

def CALL : Int := 0b01010000

def RET : Int := 0b00010001

def CMP : Int := 0b10100111

def JMP : Int := 0b01010100

def JEQ : Int := 0b01010101

def JNE : Int := 0b01010110

def AND : Int := 0b10101000

def OR : Int := 0b10101010

def XOR : Int := 0b10101011

def NOT : Int := 0b01101001

def MOD : Int := 0b10100100

def SHL : Int := 0b10101100

def SHR : Int := 0b10101101

/-- The ways the Python process can abort during execution: a list
subscript out of range (`IndexError`), subscripting a list with `None`
(`TypeError`), a negative shift count (`ValueError`), the
`raise Exception` in the ALU's fallback branch, and `sys.exit`. -/
inductive Fault where
  | indexError : Fault
  | typeError : Fault
  | valueError : Fault
  | unsupported : Fault
  | sysExit : Int → Fault
  deriving DecidableEq

/-- The machine state built by `CPU.__init__`, plus the text the
process has printed so far. -/
structure CPU where
  ram : List Int
  register : List Int
  PC : Int
  FL : Int
  output : List String
  deriving DecidableEq

/-- Python list indexing on a list of length `len`: indices in
`[0, len)` are used as given, indices in `[-len, 0)` wrap once, and
anything else raises `IndexError` (`none`). -/
def pyIndex (len : Nat) (i : Int) : Option Nat :=
  if 0 ≤ i ∧ i < (len : Int) then some i.toNat
  else if -(len : Int) ≤ i ∧ i < 0 then some (i + len).toNat
  else none

/-- Python's `a >> n` for a nonnegative literal shift: floor division
by `2 ^ n`. -/
def pyShr (a : Int) (n : Nat) : Int := Int.fdiv a (2 ^ n)

/-- `CPU.ram_read`: `self.ram[MAR]`. -/
def ram_read (c : CPU) (MAR : Int) : Except (Fault × CPU) Int :=
  match pyIndex c.ram.length MAR with
  | some i => .ok (c.ram.getD i 0)
  | none => .error (.indexError, c)

/-- `CPU.ram_write`: `self.ram[MAR] = MDR`. -/
def ram_write (c : CPU) (MDR MAR : Int) : Except (Fault × CPU) CPU :=
  match pyIndex c.ram.length MAR with
  | some i => .ok { c with ram := c.ram.set i MDR }
  | none => .error (.indexError, c)

/-- `self.register[i]` (read). -/
def reg_read (c : CPU) (i : Int) : Except (Fault × CPU) Int :=
  match pyIndex c.register.length i with
  | some j => .ok (c.register.getD j 0)
  | none => .error (.indexError, c)

/-- `self.register[i] = v`. -/
def reg_write (c : CPU) (i v : Int) : Except (Fault × CPU) CPU :=
  match pyIndex c.register.length i with
  | some j => .ok { c with register := c.register.set j v }
  | none => .error (.indexError, c)

/-- `self.register[7]`, the stack pointer.  The register file always
has length 8, so the subscript never faults. -/
def getSP (c : CPU) : Int := c.register.getD 7 0

/-- `self.register[7] = v`. -/
def setSP (c : CPU) (v : Int) : CPU :=
  { c with register := c.register.set 7 v }

/-- Reads `self.register[reg_a]` and `self.register[reg_b]`, in that
order, for the binary ALU branches.  `reg_b` is the optional second
argument of `CPU.alu`; the `NOT` dispatch passes `None`, and
subscripting a list with `None` would raise `TypeError`. -/
def binReads (c : CPU) (reg_a : Int) (reg_b : Option Int) :
    Except (Fault × CPU) (Int × Int) :=
  match reg_read c reg_a with
  | .error e => .error e
  | .ok a =>
    match reg_b with
    | none => .error (.typeError, c)
    | some rb =>
      match reg_read c rb with
      | .error e => .error e
      | .ok b => .ok (a, b)

/-- `CPU.alu`, the string-tag-dispatched ALU.  Each branch mirrors one
`elif` of the Python method; no result is reduced modulo 256. -/
def alu (c : CPU) (op : String) (reg_a : Int) (reg_b : Option Int) :
    Except (Fault × CPU) CPU :=
  if op = "ADD" then
    match binReads c reg_a reg_b with
    | .error e => .error e
    | .ok (a, b) => reg_write c reg_a (a + b)
  else if op = "MUL" then
    match binReads c reg_a reg_b with
    | .error e => .error e
    | .ok (a, b) => reg_write c reg_a (a * b)
  else if op = "CMP" then
    match binReads c reg_a reg_b with
    | .error e => .error e
    | .ok (a, b) =>
      if a < b then .ok { c with FL := 0b00000100 }
      else if a > b then .ok { c with FL := 0b00000010 }
      else if a = b then .ok { c with FL := 0b00000001 }
      else .ok c
  else if op = "AND" then
    match binReads c reg_a reg_b with
    | .error e => .error e
    | .ok (a, b) => reg_write c reg_a (Int.land a b)
  else if op = "OR" then
    match binReads c reg_a reg_b with
    | .error e => .error e
    | .ok (a, b) => reg_write c reg_a (Int.lor a b)
  else if op = "XOR" then
    match binReads c reg_a reg_b with
    | .error e => .error e
    | .ok (a, b) => reg_write c reg_a (Int.xor a b)
  else if op = "NOT" then
    match reg_read c reg_a with
    | .error e => .error e
    | .ok a => reg_write c reg_a (Int.lnot a)
  else if op = "MOD" then
    match reg_b with
    | none => .error (.typeError, c)
    | some rb =>
      match reg_read c rb with
      | .error e => .error e
      | .ok b =>
        if b = 0 then
          .error (.sysExit 1, { c with output := c.output ++ ["Error"] })
        else
          match reg_read c reg_a with
          | .error e => .error e
          | .ok a => reg_write c reg_a (Int.fmod a b)
  else if op = "SHL" then
    match binReads c reg_a reg_b with
    | .error e => .error e
    | .ok (a, b) =>
      if b < 0 then .error (.valueError, c)
      else reg_write c reg_a (a * 2 ^ b.toNat)
  else if op = "SHR" then
    match binReads c reg_a reg_b with
    | .error e => .error e
    | .ok (a, b) =>
      if b < 0 then .error (.valueError, c)
      else reg_write c reg_a (Int.fdiv a (2 ^ b.toNat))
  else
    .error (.unsupported, c)

/-- The `if ir == ... elif ...` dispatch chain in the body of
`CPU.run`.  Returns the `running` flag together with the new state, or
the fault that aborted the iteration. -/
def dispatch (c : CPU) (ir operand_a operand_b : Int) :
    Except (Fault × CPU) (Bool × CPU) :=
  if ir = HLT then .ok (false, c)
  else if ir = LDI then
    match reg_write c operand_a operand_b with
    | .error e => .error e
    | .ok c1 => .ok (true, c1)
  else if ir = PRN then
    match reg_read c operand_a with
    | .error e => .error e
    | .ok v => .ok (true, { c with output := c.output ++ [toString v] })
  else if ir = MUL then
    match alu c "MUL" operand_a (some operand_b) with
    | .error e => .error e
    | .ok c1 => .ok (true, c1)
  else if ir = ADD then
    match alu c "ADD" operand_a (some operand_b) with
    | .error e => .error e
    | .ok c1 => .ok (true, c1)
  else if ir = CMP then
    match alu c "CMP" operand_a (some operand_b) with
    | .error e => .error e
    | .ok c1 => .ok (true, c1)
  else if ir = AND then
    match alu c "AND" operand_a (some operand_b) with
    | .error e => .error e
    | .ok c1 => .ok (true, c1)
  else if ir = OR then
    match alu c "OR" operand_a (some operand_b) with
    | .error e => .error e
    | .ok c1 => .ok (true, c1)
  else if ir = XOR then
    match alu c "XOR" operand_a (some operand_b) with
    | .error e => .error e
    | .ok c1 => .ok (true, c1)
  else if ir = NOT then
    match alu c "NOT" operand_a none with
    | .error e => .error e
    | .ok c1 => .ok (true, c1)
  else if ir = MOD then
    match alu c "MOD" operand_a (some operand_b) with
    | .error e => .error e
    | .ok c1 => .ok (true, c1)
  else if ir = SHL then
    match alu c "SHL" operand_a (some operand_b) with
    | .error e => .error e
    | .ok c1 => .ok (true, c1)
  else if ir = SHR then
    match alu c "SHR" operand_a (some operand_b) with
    | .error e => .error e
    | .ok c1 => .ok (true, c1)
  else if ir = PUSH then
    match reg_read (setSP c (getSP c - 1)) operand_a with
    | .error e => .error e
    | .ok val =>
      match ram_write (setSP c (getSP c - 1)) val
          (getSP (setSP c (getSP c - 1))) with
      | .error e => .error e
      | .ok c2 => .ok (true, c2)
  else if ir = POP then
    match ram_read c (getSP c) with
    | .error e => .error e
    | .ok val =>
      match reg_write c operand_a val with
      | .error e => .error e
      | .ok c1 => .ok (true, setSP c1 (getSP c1 + 1))
  else if ir = CALL then
    match ram_write (setSP c (getSP c - 1)) ((setSP c (getSP c - 1)).PC + 2)
        (getSP (setSP c (getSP c - 1))) with
    | .error e => .error e
    | .ok c2 =>
      match reg_read c2 operand_a with
      | .error e => .error e
      | .ok target => .ok (true, { c2 with PC := target })
  else if ir = RET then
    match ram_read c (getSP c) with
    | .error e => .error e
    | .ok addr => .ok (true, setSP { c with PC := addr } (getSP c + 1))
  else if ir = JMP then
    match reg_read c operand_a with
    | .error e => .error e
    | .ok t => .ok (true, { c with PC := t })
  else if ir = JEQ then
    if Int.land c.FL 0b00000001 = 1 then
      match reg_read c operand_a with
      | .error e => .error e
      | .ok t => .ok (true, { c with PC := t })
    else .ok (true, { c with PC := c.PC + 2 })
  else if ir = JNE then
    if Int.land c.FL 0b00000001 ≠ 1 then
      match reg_read c operand_a with
      | .error e => .error e
      | .ok t => .ok (true, { c with PC := t })
    else .ok (true, { c with PC := c.PC + 2 })
  else
    .ok (false, { c with output := c.output ++ [s!"Invalid instruction {ir}"] })

/-- The unconditional tail of each loop iteration:
`if ir & 0b00010000 == 0: self.PC += (ir >> 6) + 1`. -/
def advance (ir : Int) (c : CPU) : CPU :=
  if Int.land ir 0b00010000 = 0 then { c with PC := c.PC + (pyShr ir 6 + 1) }
  else c

/-- The outcome of one iteration of the `while running` loop: continue,
leave the loop (`running = False`), or abort with a fault, carrying in
each case the machine state afterwards. -/
inductive StepOutcome where
  | next : CPU → StepOutcome
  | halt : CPU → StepOutcome
  | fault : Fault → CPU → StepOutcome
  deriving DecidableEq

/-- One iteration of the `while running` loop of `CPU.run`: the three
unconditional reads at `PC`, `PC + 1`, `PC + 2`, the dispatch chain,
then the PC-advance rule. -/
def stepBody (c : CPU) : StepOutcome :=
  match ram_read c c.PC with
  | .error (f, cf) => .fault f cf
  | .ok ir =>
    match ram_read c (c.PC + 1) with
    | .error (f, cf) => .fault f cf
    | .ok operand_a =>
      match ram_read c (c.PC + 2) with
      | .error (f, cf) => .fault f cf
      | .ok operand_b =>
        match dispatch c ir operand_a operand_b with
        | .error (f, cf) => .fault f cf
        | .ok (running, c1) =>
          if running then .next (advance ir c1) else .halt (advance ir c1)

/-- The result of running the loop with a given amount of fuel. -/
inductive RunResult where
  | halted : CPU → RunResult
  | fault : Fault → CPU → RunResult
  | timeout : CPU → RunResult
  deriving DecidableEq

/-- `CPU.run`: iterate `stepBody` until the loop exits or a fault
aborts it, with fuel making the recursion structural. -/
def runLoop : Nat → CPU → RunResult
  | 0, c => .timeout c
  | n + 1, c =>
    match stepBody c with
    | .next c1 => runLoop n c1
    | .halt c1 => .halted c1
    | .fault f c1 => .fault f c1

/-- `CPU.__init__`: 256 zeroed memory cells, 8 zeroed registers except
the stack pointer (register 7) at `0xF4`, `PC = 0`, `FL = 0`. -/
def initCPU : CPU :=
  { ram := List.replicate 256 0
    register := (List.replicate 8 0).set 7 0xF4
    PC := 0
    FL := 0
    output := [] }

/-- `CPU.load`, restricted to its effect on the machine state: the
parsed byte values are stored at ascending addresses starting at 0. -/
def load (prog : List Int) (c : CPU) : CPU :=
  { c with ram := prog ++ c.ram.drop prog.length }

/-- A machine state whose registers 0 and 1 hold the given values:
used to evaluate single instructions at concrete inputs. -/
def testRegs (a b : Int) : CPU :=
  { initCPU with register := [a, b, 0, 0, 0, 0, 0, 0xF4] }

/-- The five-byte program `PUSH r0; POP r0; HLT` loaded into the fresh
machine, and the states after its first two instructions. -/
def pushPopS0 : CPU := load [69, 0, 70, 0, 1] initCPU

def pushPopS1 : CPU :=
  { pushPopS0 with
    ram := pushPopS0.ram.set 243 0
    register := pushPopS0.register.set 7 (getSP pushPopS0 - 1)
    PC := pushPopS0.PC + 2 }

def pushPopS2 : CPU :=
  { pushPopS1 with
    register := (pushPopS1.register.set 0 0).set 7
      ((pushPopS1.register.set 0 0).getD 7 0 + 1)
    PC := pushPopS1.PC + 2 }

/-- The program `CALL r0; ...; RET` (RET at address 6) with register 0
preset to 6, and the state after the CALL executes. -/
def callS0 : CPU :=
  { load [80, 0, 0, 0, 0, 0, 17] initCPU with
    register := [6, 0, 0, 0, 0, 0, 0, 0xF4] }

def callS1 : CPU :=
  { callS0 with
    ram := callS0.ram.set 243 (callS0.PC + 2)
    register := callS0.register.set 7 (getSP callS0 - 1)
    PC := 6 }

/-! ### Helper lemmas about indexing -/

theorem pyIndex_natCast (len a : Nat) (ha : a < len) :
    pyIndex len (a : Int) = some a := by
  unfold pyIndex
  rw [if_pos ⟨Int.natCast_nonneg a, by exact_mod_cast ha⟩]
  simp

theorem reg_read_nat (c : CPU) (a : Nat) (ha : a < c.register.length) :
    reg_read c (a : Int) = .ok (c.register.getD a 0) := by
  unfold reg_read
  rw [pyIndex_natCast _ _ ha]

theorem reg_write_nat (c : CPU) (a : Nat) (v : Int)
    (ha : a < c.register.length) :
    reg_write c (a : Int) v = .ok { c with register := c.register.set a v } := by
  unfold reg_write
  rw [pyIndex_natCast _ _ ha]

theorem binReads_nat (c : CPU) (a b : Nat) (ha : a < c.register.length)
    (hb : b < c.register.length) :
    binReads c (a : Int) (some (b : Int)) =
      .ok (c.register.getD a 0, c.register.getD b 0) := by
  unfold binReads
  simp only [reg_read_nat c a ha, reg_read_nat c b hb]

/-! ### Unfolding lemmas for the ALU's string-tag dispatch -/

theorem alu_ADD_eq (c : CPU) (x : Int) (y : Option Int) :
    alu c "ADD" x y =
      match binReads c x y with
      | .error e => .error e
      | .ok (a, b) => reg_write c x (a + b) := rfl

theorem alu_MUL_eq (c : CPU) (x : Int) (y : Option Int) :
    alu c "MUL" x y =
      match binReads c x y with
      | .error e => .error e
      | .ok (a, b) => reg_write c x (a * b) := rfl

theorem alu_CMP_eq (c : CPU) (x : Int) (y : Option Int) :
    alu c "CMP" x y =
      match binReads c x y with
      | .error e => .error e
      | .ok (a, b) =>
        if a < b then .ok { c with FL := 4 }
        else if a > b then .ok { c with FL := 2 }
        else if a = b then .ok { c with FL := 1 }
        else .ok c := rfl

theorem alu_AND_eq (c : CPU) (x : Int) (y : Option Int) :
    alu c "AND" x y =
      match binReads c x y with
      | .error e => .error e
      | .ok (a, b) => reg_write c x (Int.land a b) := rfl

theorem alu_OR_eq (c : CPU) (x : Int) (y : Option Int) :
    alu c "OR" x y =
      match binReads c x y with
      | .error e => .error e
      | .ok (a, b) => reg_write c x (Int.lor a b) := rfl

theorem alu_XOR_eq (c : CPU) (x : Int) (y : Option Int) :
    alu c "XOR" x y =
      match binReads c x y with
      | .error e => .error e
      | .ok (a, b) => reg_write c x (Int.xor a b) := rfl

theorem alu_NOT_eq (c : CPU) (x : Int) (y : Option Int) :
    alu c "NOT" x y =
      match reg_read c x with
      | .error e => .error e
      | .ok a => reg_write c x (Int.lnot a) := rfl

theorem alu_MOD_eq (c : CPU) (x : Int) (y : Option Int) :
    alu c "MOD" x y =
      match y with
      | none => .error (.typeError, c)
      | some rb =>
        match reg_read c rb with
        | .error e => .error e
        | .ok b =>
          if b = 0 then
            .error (.sysExit 1, { c with output := c.output ++ ["Error"] })
          else
            match reg_read c x with
            | .error e => .error e
            | .ok a => reg_write c x (Int.fmod a b) := rfl

theorem alu_SHL_eq (c : CPU) (x : Int) (y : Option Int) :
    alu c "SHL" x y =
      match binReads c x y with
      | .error e => .error e
      | .ok (a, b) =>
        if b < 0 then .error (.valueError, c)
        else reg_write c x (a * 2 ^ b.toNat) := rfl

theorem alu_SHR_eq (c : CPU) (x : Int) (y : Option Int) :
    alu c "SHR" x y =
      match binReads c x y with
      | .error e => .error e
      | .ok (a, b) =>
        if b < 0 then .error (.valueError, c)
        else reg_write c x (Int.fdiv a (2 ^ b.toNat)) := rfl

/-! ### Frame lemmas: which state components an instruction can touch -/

theorem advance_ram (ir : Int) (c : CPU) : (advance ir c).ram = c.ram := by
  unfold advance; split <;> rfl

theorem advance_FL (ir : Int) (c : CPU) : (advance ir c).FL = c.FL := by
  unfold advance; split <;> rfl

/-- Inverting `reg_write ... = .ok ...`: only the register file
changes. -/
theorem reg_write_ok_frame (c : CPU) (i v : Int) (c' : CPU)
    (h : reg_write c i v = .ok c') :
    c'.ram = c.ram ∧ c'.PC = c.PC ∧ c'.FL = c.FL ∧ c'.output = c.output := by
  unfold reg_write at h
  split at h
  · injection h with h2; subst h2; exact ⟨rfl, rfl, rfl, rfl⟩
  · exact Except.noConfusion h

/-- Inverting `ram_write ... = .ok ...`: only memory changes. -/
theorem ram_write_ok_frame (c : CPU) (M A : Int) (c' : CPU)
    (h : ram_write c M A = .ok c') :
    c'.register = c.register ∧ c'.PC = c.PC ∧ c'.FL = c.FL ∧
      c'.output = c.output := by
  unfold ram_write at h
  split at h
  · injection h with h2; subst h2; exact ⟨rfl, rfl, rfl, rfl⟩
  · exact Except.noConfusion h

/-- Inverting the `| .ok c1 => .ok (true, c1)` wrapper the dispatch
chain puts around its state-transforming branches. -/
theorem except_wrap_inv (E : Except (Fault × CPU) CPU) (running : Bool)
    (c' : CPU)
    (h : (match E with
          | .error e => Except.error e
          | .ok c1 => Except.ok (true, c1)) = Except.ok (running, c')) :
    E = .ok c' ∧ running = true := by
  cases E with
  | error e => exact Except.noConfusion h
  | ok c1 =>
    injection h with h; injection h with h1 h2; subst h2
    exact ⟨rfl, h1.symm⟩

/-- Frame for the binary ALU shape `reg_a ← f reg_a reg_b`: only the
register file changes. -/
theorem binop_ok_frame (c : CPU) (x : Int) (y : Option Int)
    (f : Int → Int → Int) (c' : CPU)
    (h : (match binReads c x y with
          | .error e => Except.error e
          | .ok (a, b) => reg_write c x (f a b)) = Except.ok c') :
    c'.ram = c.ram ∧ c'.PC = c.PC ∧ c'.FL = c.FL ∧ c'.output = c.output := by
  cases hb : binReads c x y with
  | error e => rw [hb] at h; exact Except.noConfusion h
  | ok ab =>
    obtain ⟨a, b⟩ := ab
    rw [hb] at h
    exact reg_write_ok_frame _ _ _ _ h

/-- Frame for the shift ALU shape (`SHL`/`SHR`), which faults on a
negative shift count and otherwise writes `reg_a`. -/
theorem shiftop_ok_frame (c : CPU) (x : Int) (y : Option Int)
    (f : Int → Int → Int) (c' : CPU)
    (h : (match binReads c x y with
          | .error e => Except.error e
          | .ok (a, b) =>
            if b < 0 then Except.error (.valueError, c)
            else reg_write c x (f a b)) = Except.ok c') :
    c'.ram = c.ram ∧ c'.PC = c.PC ∧ c'.FL = c.FL ∧ c'.output = c.output := by
  cases hb : binReads c x y with
  | error e => rw [hb] at h; exact Except.noConfusion h
  | ok ab =>
    obtain ⟨a, b⟩ := ab
    simp only [hb] at h
    split at h
    · exact Except.noConfusion h
    · exact reg_write_ok_frame _ _ _ _ h

/-- Frame for the `MOD` ALU branch: a successful `MOD` only changes
the register file. -/
theorem modop_ok_frame (c : CPU) (x : Int) (y : Option Int) (c' : CPU)
    (h : (match y with
          | none => Except.error (.typeError, c)
          | some rb =>
            match reg_read c rb with
            | .error e => Except.error e
            | .ok b =>
              if b = 0 then
                Except.error (.sysExit 1,
                  { c with output := c.output ++ ["Error"] })
              else
                match reg_read c x with
                | .error e => Except.error e
                | .ok a => reg_write c x (Int.fmod a b)) = Except.ok c') :
    c'.ram = c.ram ∧ c'.PC = c.PC ∧ c'.FL = c.FL ∧ c'.output = c.output := by
  cases y with
  | none => exact Except.noConfusion h
  | some rb =>
    cases hb : reg_read c rb with
    | error e => simp only [hb] at h; exact Except.noConfusion h
    | ok b =>
      simp only [hb] at h
      split at h
      · exact Except.noConfusion h
      · cases ha : reg_read c x with
        | error e => simp only [ha] at h; exact Except.noConfusion h
        | ok a =>
          simp only [ha] at h
          exact reg_write_ok_frame _ _ _ _ h

/-- Frame for the `NOT` ALU branch. -/
theorem notop_ok_frame (c : CPU) (x : Int) (c' : CPU)
    (h : (match reg_read c x with
          | .error e => Except.error e
          | .ok a => reg_write c x (Int.lnot a)) = Except.ok c') :
    c'.ram = c.ram ∧ c'.PC = c.PC ∧ c'.FL = c.FL ∧ c'.output = c.output := by
  cases ha : reg_read c x with
  | error e => rw [ha] at h; exact Except.noConfusion h
  | ok a => rw [ha] at h; exact reg_write_ok_frame _ _ _ _ h

/-- Frame for the `CMP` ALU branch: a successful `CMP` only changes
the flags register. -/
theorem cmpop_ok_frame (c : CPU) (x : Int) (y : Option Int) (c' : CPU)
    (h : alu c "CMP" x y = Except.ok c') :
    c'.ram = c.ram ∧ c'.PC = c.PC ∧ c'.register = c.register ∧
      c'.output = c.output := by
  rw [alu_CMP_eq] at h
  cases hb : binReads c x y with
  | error e => rw [hb] at h; exact Except.noConfusion h
  | ok ab =>
    obtain ⟨a, b⟩ := ab
    simp only [hb] at h
    repeat' split at h
    all_goals (injection h with h2; subst h2; exact ⟨rfl, rfl, rfl, rfl⟩)

/-- Inversion frame lemma for one successful dispatch: every branch
other than `PUSH` and `CALL` leaves memory unchanged, and every branch
other than `CMP` leaves the flags register unchanged. -/
theorem dispatch_ok_frame (c : CPU) (ir opa opb : Int) (running : Bool)
    (c' : CPU) (hd : dispatch c ir opa opb = .ok (running, c')) :
    (ir ≠ PUSH → ir ≠ CALL → c'.ram = c.ram) ∧ (ir ≠ CMP → c'.FL = c.FL) := by
  unfold dispatch at hd
  by_cases e1 : ir = HLT
  · rw [if_pos e1] at hd
    injection hd with h; injection h with h1 h2; subst h2
    exact ⟨fun _ _ => rfl, fun _ => rfl⟩
  rw [if_neg e1] at hd
  by_cases e2 : ir = LDI
  · rw [if_pos e2] at hd
    cases hX : reg_write c opa opb with
    | error e => simp only [hX] at hd; exact Except.noConfusion hd
    | ok c1 =>
      simp only [hX] at hd
      injection hd with h; injection h with h1 h2; subst h2
      obtain ⟨hram, -, hfl, -⟩ := reg_write_ok_frame _ _ _ _ hX
      exact ⟨fun _ _ => hram, fun _ => hfl⟩
  rw [if_neg e2] at hd
  by_cases e3 : ir = PRN
  · rw [if_pos e3] at hd
    cases hX : reg_read c opa with
    | error e => simp only [hX] at hd; exact Except.noConfusion hd
    | ok v =>
      simp only [hX] at hd
      injection hd with h; injection h with h1 h2; subst h2
      exact ⟨fun _ _ => rfl, fun _ => rfl⟩
  rw [if_neg e3] at hd
  by_cases e4 : ir = MUL
  · rw [if_pos e4] at hd
    cases hX : alu c "MUL" opa (some opb) with
    | error e => simp only [hX] at hd; exact Except.noConfusion hd
    | ok c1 =>
      simp only [hX] at hd
      injection hd with h; injection h with h1 h2; subst h2
      rw [alu_MUL_eq] at hX
      obtain ⟨hram, -, hfl, -⟩ :=
        binop_ok_frame c opa (some opb) (fun a b => a * b) c1 hX
      exact ⟨fun _ _ => hram, fun _ => hfl⟩
  rw [if_neg e4] at hd
  by_cases e5 : ir = ADD
  · rw [if_pos e5] at hd
    cases hX : alu c "ADD" opa (some opb) with
    | error e => simp only [hX] at hd; exact Except.noConfusion hd
    | ok c1 =>
      simp only [hX] at hd
      injection hd with h; injection h with h1 h2; subst h2
      rw [alu_ADD_eq] at hX
      obtain ⟨hram, -, hfl, -⟩ :=
        binop_ok_frame c opa (some opb) (fun a b => a + b) c1 hX
      exact ⟨fun _ _ => hram, fun _ => hfl⟩
  rw [if_neg e5] at hd
  by_cases e6 : ir = CMP
  · rw [if_pos e6] at hd
    cases hX : alu c "CMP" opa (some opb) with
    | error e => simp only [hX] at hd; exact Except.noConfusion hd
    | ok c1 =>
      simp only [hX] at hd
      injection hd with h; injection h with h1 h2; subst h2
      obtain ⟨hram, -, -, -⟩ := cmpop_ok_frame c opa (some opb) c1 hX
      exact ⟨fun _ _ => hram, fun hm => absurd e6 hm⟩
  rw [if_neg e6] at hd
  by_cases e7 : ir = AND
  · rw [if_pos e7] at hd
    cases hX : alu c "AND" opa (some opb) with
    | error e => simp only [hX] at hd; exact Except.noConfusion hd
    | ok c1 =>
      simp only [hX] at hd
      injection hd with h; injection h with h1 h2; subst h2
      rw [alu_AND_eq] at hX
      obtain ⟨hram, -, hfl, -⟩ :=
        binop_ok_frame c opa (some opb) (fun a b => Int.land a b) c1 hX
      exact ⟨fun _ _ => hram, fun _ => hfl⟩
  rw [if_neg e7] at hd
  by_cases e8 : ir = OR
  · rw [if_pos e8] at hd
    cases hX : alu c "OR" opa (some opb) with
    | error e => simp only [hX] at hd; exact Except.noConfusion hd
    | ok c1 =>
      simp only [hX] at hd
      injection hd with h; injection h with h1 h2; subst h2
      rw [alu_OR_eq] at hX
      obtain ⟨hram, -, hfl, -⟩ :=
        binop_ok_frame c opa (some opb) (fun a b => Int.lor a b) c1 hX
      exact ⟨fun _ _ => hram, fun _ => hfl⟩
  rw [if_neg e8] at hd
  by_cases e9 : ir = XOR
  · rw [if_pos e9] at hd
    cases hX : alu c "XOR" opa (some opb) with
    | error e => simp only [hX] at hd; exact Except.noConfusion hd
    | ok c1 =>
      simp only [hX] at hd
      injection hd with h; injection h with h1 h2; subst h2
      rw [alu_XOR_eq] at hX
      obtain ⟨hram, -, hfl, -⟩ :=
        binop_ok_frame c opa (some opb) (fun a b => Int.xor a b) c1 hX
      exact ⟨fun _ _ => hram, fun _ => hfl⟩
  rw [if_neg e9] at hd
  by_cases e10 : ir = NOT
  · rw [if_pos e10] at hd
    cases hX : alu c "NOT" opa none with
    | error e => simp only [hX] at hd; exact Except.noConfusion hd
    | ok c1 =>
      simp only [hX] at hd
      injection hd with h; injection h with h1 h2; subst h2
      rw [alu_NOT_eq] at hX
      obtain ⟨hram, -, hfl, -⟩ := notop_ok_frame c opa c1 hX
      exact ⟨fun _ _ => hram, fun _ => hfl⟩
  rw [if_neg e10] at hd
  by_cases e11 : ir = MOD
  · rw [if_pos e11] at hd
    cases hX : alu c "MOD" opa (some opb) with
    | error e => simp only [hX] at hd; exact Except.noConfusion hd
    | ok c1 =>
      simp only [hX] at hd
      injection hd with h; injection h with h1 h2; subst h2
      rw [alu_MOD_eq] at hX
      obtain ⟨hram, -, hfl, -⟩ := modop_ok_frame c opa (some opb) c1 hX
      exact ⟨fun _ _ => hram, fun _ => hfl⟩
  rw [if_neg e11] at hd
  by_cases e12 : ir = SHL
  · rw [if_pos e12] at hd
    cases hX : alu c "SHL" opa (some opb) with
    | error e => simp only [hX] at hd; exact Except.noConfusion hd
    | ok c1 =>
      simp only [hX] at hd
      injection hd with h; injection h with h1 h2; subst h2
      rw [alu_SHL_eq] at hX
      obtain ⟨hram, -, hfl, -⟩ :=
        shiftop_ok_frame c opa (some opb) (fun a b => a * 2 ^ b.toNat) c1 hX
      exact ⟨fun _ _ => hram, fun _ => hfl⟩
  rw [if_neg e12] at hd
  by_cases e13 : ir = SHR
  · rw [if_pos e13] at hd
    cases hX : alu c "SHR" opa (some opb) with
    | error e => simp only [hX] at hd; exact Except.noConfusion hd
    | ok c1 =>
      simp only [hX] at hd
      injection hd with h; injection h with h1 h2; subst h2
      rw [alu_SHR_eq] at hX
      obtain ⟨hram, -, hfl, -⟩ :=
        shiftop_ok_frame c opa (some opb) (fun a b => Int.fdiv a (2 ^ b.toNat)) c1 hX
      exact ⟨fun _ _ => hram, fun _ => hfl⟩
  rw [if_neg e13] at hd
  by_cases e14 : ir = PUSH
  · rw [if_pos e14] at hd
    cases hv : reg_read (setSP c (getSP c - 1)) opa with
    | error e => simp only [hv] at hd; exact Except.noConfusion hd
    | ok val =>
      simp only [hv] at hd
      cases hw : ram_write (setSP c (getSP c - 1)) val
          (getSP (setSP c (getSP c - 1))) with
      | error e => simp only [hw] at hd; exact Except.noConfusion hd
      | ok c2 =>
        simp only [hw] at hd
        injection hd with h; injection h with h1 h2; subst h2
        obtain ⟨-, -, hfl, -⟩ := ram_write_ok_frame _ _ _ _ hw
        exact ⟨fun hp _ => absurd e14 hp, fun _ => hfl⟩
  rw [if_neg e14] at hd
  by_cases e15 : ir = POP
  · rw [if_pos e15] at hd
    cases hrd : ram_read c (getSP c) with
    | error e => simp only [hrd] at hd; exact Except.noConfusion hd
    | ok val =>
      simp only [hrd] at hd
      cases hw : reg_write c opa val with
      | error e => simp only [hw] at hd; exact Except.noConfusion hd
      | ok c1 =>
        simp only [hw] at hd
        injection hd with h; injection h with h1 h2; subst h2
        obtain ⟨hram, -, hfl, -⟩ := reg_write_ok_frame _ _ _ _ hw
        exact ⟨fun _ _ => hram, fun _ => hfl⟩
  rw [if_neg e15] at hd
  by_cases e16 : ir = CALL
  · rw [if_pos e16] at hd
    cases hw : ram_write (setSP c (getSP c - 1)) ((setSP c (getSP c - 1)).PC + 2)
        (getSP (setSP c (getSP c - 1))) with
    | error e => simp only [hw] at hd; exact Except.noConfusion hd
    | ok c2 =>
      simp only [hw] at hd
      cases ht : reg_read c2 opa with
      | error e => simp only [ht] at hd; exact Except.noConfusion hd
      | ok target =>
        simp only [ht] at hd
        injection hd with h; injection h with h1 h2; subst h2
        obtain ⟨-, -, hfl, -⟩ := ram_write_ok_frame _ _ _ _ hw
        exact ⟨fun _ hc => absurd e16 hc, fun _ => hfl⟩
  rw [if_neg e16] at hd
  by_cases e17 : ir = RET
  · rw [if_pos e17] at hd
    cases ha : ram_read c (getSP c) with
    | error e => simp only [ha] at hd; exact Except.noConfusion hd
    | ok addr =>
      simp only [ha] at hd
      injection hd with h; injection h with h1 h2; subst h2
      exact ⟨fun _ _ => rfl, fun _ => rfl⟩
  rw [if_neg e17] at hd
  by_cases e18 : ir = JMP
  · rw [if_pos e18] at hd
    cases ht : reg_read c opa with
    | error e => simp only [ht] at hd; exact Except.noConfusion hd
    | ok t =>
      simp only [ht] at hd
      injection hd with h; injection h with h1 h2; subst h2
      exact ⟨fun _ _ => rfl, fun _ => rfl⟩
  rw [if_neg e18] at hd
  by_cases e19 : ir = JEQ
  · rw [if_pos e19] at hd
    split at hd
    · cases ht : reg_read c opa with
      | error e => simp only [ht] at hd; exact Except.noConfusion hd
      | ok t =>
        simp only [ht] at hd
        injection hd with h; injection h with h1 h2; subst h2
        exact ⟨fun _ _ => rfl, fun _ => rfl⟩
    · injection hd with h; injection h with h1 h2; subst h2
      exact ⟨fun _ _ => rfl, fun _ => rfl⟩
  rw [if_neg e19] at hd
  by_cases e20 : ir = JNE
  · rw [if_pos e20] at hd
    split at hd
    · cases ht : reg_read c opa with
      | error e => simp only [ht] at hd; exact Except.noConfusion hd
      | ok t =>
        simp only [ht] at hd
        injection hd with h; injection h with h1 h2; subst h2
        exact ⟨fun _ _ => rfl, fun _ => rfl⟩
    · injection hd with h; injection h with h1 h2; subst h2
      exact ⟨fun _ _ => rfl, fun _ => rfl⟩
  rw [if_neg e20] at hd
  injection hd with h; injection h with h1 h2; subst h2
  exact ⟨fun _ _ => rfl, fun _ => rfl⟩

theorem advance_register (ir : Int) (c : CPU) :
    (advance ir c).register = c.register := by
  unfold advance; split <;> rfl

/-- Lifting `dispatch_ok_frame` through the fetch reads and the
PC-advance tail of one loop iteration. -/
theorem stepBody_frame (c : CPU) (ir : Int) (c' : CPU)
    (hir : ram_read c c.PC = .ok ir)
    (hout : stepBody c = .next c' ∨ stepBody c = .halt c') :
    (ir ≠ PUSH → ir ≠ CALL → c'.ram = c.ram) ∧ (ir ≠ CMP → c'.FL = c.FL) := by
  unfold stepBody at hout
  rw [hir] at hout
  cases h1 : ram_read c (c.PC + 1) with
  | error e =>
    obtain ⟨f, cf⟩ := e
    simp only [h1] at hout
    rcases hout with h | h <;> exact StepOutcome.noConfusion h
  | ok opa =>
    simp only [h1] at hout
    cases h2 : ram_read c (c.PC + 2) with
    | error e =>
      obtain ⟨f, cf⟩ := e
      simp only [h2] at hout
      rcases hout with h | h <;> exact StepOutcome.noConfusion h
    | ok opb =>
      simp only [h2] at hout
      cases hdp : dispatch c ir opa opb with
      | error e =>
        obtain ⟨f, cf⟩ := e
        simp only [hdp] at hout
        rcases hout with h | h <;> exact StepOutcome.noConfusion h
      | ok p =>
        obtain ⟨running, c1⟩ := p
        simp only [hdp] at hout
        have hfr := dispatch_ok_frame c ir opa opb running c1 hdp
        have hadv : c' = advance ir c1 := by
          cases running <;> simp at hout <;> exact hout.symm
        subst hadv
        refine ⟨fun hp hc => ?_, fun hm => ?_⟩
        · rw [advance_ram]; exact hfr.1 hp hc
        · rw [advance_FL]; exact hfr.2 hm

/-- Full characterisation of a `CMP` ALU call on valid register
indices: only the flags register changes, to exactly one of the three
one-bit values, matching the ordering of the two register values. -/
theorem alu_CMP_char (c : CPU) (a b : Nat) (ha : a < c.register.length)
    (hb : b < c.register.length) :
    alu c "CMP" (a : Int) (some (b : Int)) =
      .ok { c with FL :=
        if c.register.getD a 0 < c.register.getD b 0 then 4
        else if c.register.getD b 0 < c.register.getD a 0 then 2
        else 1 } := by
  rw [alu_CMP_eq]
  simp only [binReads_nat c a b ha hb]
  by_cases h1 : c.register.getD a 0 < c.register.getD b 0
  · rw [if_pos h1, if_pos h1]
  · rw [if_neg h1, if_neg h1]
    by_cases h2 : c.register.getD a 0 > c.register.getD b 0
    · rw [if_pos h2,
        if_pos (show c.register.getD b 0 < c.register.getD a 0 from h2)]
    · rw [if_neg h2,
        if_neg (show ¬c.register.getD b 0 < c.register.getD a 0 from h2)]
      rw [if_pos (show c.register.getD a 0 = c.register.getD b 0 by omega)]

/-! ### Per-operation characterisations of the ALU on valid register
indices -/

theorem alu_ADD_char (c : CPU) (a b : Nat) (ha : a < c.register.length)
    (hb : b < c.register.length) :
    alu c "ADD" (a : Int) (some (b : Int)) =
      .ok { c with register :=
        c.register.set a (c.register.getD a 0 + c.register.getD b 0) } := by
  rw [alu_ADD_eq]
  simp only [binReads_nat c a b ha hb]
  exact reg_write_nat c a _ ha

theorem alu_MUL_char (c : CPU) (a b : Nat) (ha : a < c.register.length)
    (hb : b < c.register.length) :
    alu c "MUL" (a : Int) (some (b : Int)) =
      .ok { c with register :=
        c.register.set a (c.register.getD a 0 * c.register.getD b 0) } := by
  rw [alu_MUL_eq]
  simp only [binReads_nat c a b ha hb]
  exact reg_write_nat c a _ ha

theorem alu_AND_char (c : CPU) (a b : Nat) (ha : a < c.register.length)
    (hb : b < c.register.length) :
    alu c "AND" (a : Int) (some (b : Int)) =
      .ok { c with register :=
        c.register.set a (Int.land (c.register.getD a 0)
          (c.register.getD b 0)) } := by
  rw [alu_AND_eq]
  simp only [binReads_nat c a b ha hb]
  exact reg_write_nat c a _ ha

theorem alu_OR_char (c : CPU) (a b : Nat) (ha : a < c.register.length)
    (hb : b < c.register.length) :
    alu c "OR" (a : Int) (some (b : Int)) =
      .ok { c with register :=
        c.register.set a (Int.lor (c.register.getD a 0)
          (c.register.getD b 0)) } := by
  rw [alu_OR_eq]
  simp only [binReads_nat c a b ha hb]
  exact reg_write_nat c a _ ha

theorem alu_XOR_char (c : CPU) (a b : Nat) (ha : a < c.register.length)
    (hb : b < c.register.length) :
    alu c "XOR" (a : Int) (some (b : Int)) =
      .ok { c with register :=
        c.register.set a (Int.xor (c.register.getD a 0)
          (c.register.getD b 0)) } := by
  rw [alu_XOR_eq]
  simp only [binReads_nat c a b ha hb]
  exact reg_write_nat c a _ ha

theorem alu_NOT_char (c : CPU) (a : Nat) (ha : a < c.register.length) :
    alu c "NOT" (a : Int) none =
      .ok { c with register :=
        c.register.set a (Int.lnot (c.register.getD a 0)) } := by
  rw [alu_NOT_eq]
  simp only [reg_read_nat c a ha]
  exact reg_write_nat c a _ ha

theorem alu_MOD_char (c : CPU) (a b : Nat) (ha : a < c.register.length)
    (hb : b < c.register.length) (hz : c.register.getD b 0 ≠ 0) :
    alu c "MOD" (a : Int) (some (b : Int)) =
      .ok { c with register :=
        c.register.set a (Int.fmod (c.register.getD a 0)
          (c.register.getD b 0)) } := by
  rw [alu_MOD_eq]
  simp only [reg_read_nat c b hb, reg_read_nat c a ha]
  rw [if_neg hz]
  exact reg_write_nat c a _ ha

theorem alu_SHL_char (c : CPU) (a b : Nat) (ha : a < c.register.length)
    (hb : b < c.register.length) (hn : 0 ≤ c.register.getD b 0) :
    alu c "SHL" (a : Int) (some (b : Int)) =
      .ok { c with register :=
        c.register.set a (c.register.getD a 0 *
          2 ^ (c.register.getD b 0).toNat) } := by
  rw [alu_SHL_eq]
  simp only [binReads_nat c a b ha hb]
  rw [if_neg (by omega)]
  exact reg_write_nat c a _ ha

theorem alu_SHR_char (c : CPU) (a b : Nat) (ha : a < c.register.length)
    (hb : b < c.register.length) (hn : 0 ≤ c.register.getD b 0) :
    alu c "SHR" (a : Int) (some (b : Int)) =
      .ok { c with register :=
        c.register.set a (Int.fdiv (c.register.getD a 0)
          (2 ^ (c.register.getD b 0).toNat)) } := by
  rw [alu_SHR_eq]
  simp only [binReads_nat c a b ha hb]
  rw [if_neg (by omega)]
  exact reg_write_nat c a _ ha

/-! ### Claim theorems -/

set_option maxRecDepth 10000 in
/-- C1 (counterexample): executing ADD on registers holding 200 and
200 writes 400 into `reg_a`, which is not `(200 + 200) mod 256 = 144`:
the ALU does not reduce results modulo 256. -/
theorem claim_c1_counterexample :
    alu (testRegs 200 200) "ADD" 0 (some 1) =
      .ok { testRegs 200 200 with
        register := [400, 200, 0, 0, 0, 0, 0, 0xF4] } ∧
    (400 : Int) ≠ (200 + 200) % 256 := by
  refine ⟨rfl, by decide⟩

/-- C1 (amended): for every pair of valid register indices and every
ALU operation tag, the ALU writes into `reg_a` the exact, unreduced
value `reg_a OP reg_b` — no modulo-256 reduction is applied — and
never raises on overflow (`MOD` under the precondition `reg_b ≠ 0`,
the shifts under the precondition `reg_b ≥ 0`; `NOT` uses `reg_a`
alone). -/
theorem claim_c1_alu_unmasked (c : CPU) (a b : Nat)
    (ha : a < c.register.length) (hb : b < c.register.length) :
    alu c "ADD" (a : Int) (some (b : Int)) =
      .ok { c with register :=
        c.register.set a (c.register.getD a 0 + c.register.getD b 0) } ∧
    alu c "MUL" (a : Int) (some (b : Int)) =
      .ok { c with register :=
        c.register.set a (c.register.getD a 0 * c.register.getD b 0) } ∧
    alu c "AND" (a : Int) (some (b : Int)) =
      .ok { c with register :=
        c.register.set a (Int.land (c.register.getD a 0)
          (c.register.getD b 0)) } ∧
    alu c "OR" (a : Int) (some (b : Int)) =
      .ok { c with register :=
        c.register.set a (Int.lor (c.register.getD a 0)
          (c.register.getD b 0)) } ∧
    alu c "XOR" (a : Int) (some (b : Int)) =
      .ok { c with register :=
        c.register.set a (Int.xor (c.register.getD a 0)
          (c.register.getD b 0)) } ∧
    alu c "NOT" (a : Int) none =
      .ok { c with register :=
        c.register.set a (Int.lnot (c.register.getD a 0)) } ∧
    (c.register.getD b 0 ≠ 0 →
      alu c "MOD" (a : Int) (some (b : Int)) =
        .ok { c with register :=
          c.register.set a (Int.fmod (c.register.getD a 0)
            (c.register.getD b 0)) }) ∧
    (0 ≤ c.register.getD b 0 →
      alu c "SHL" (a : Int) (some (b : Int)) =
        .ok { c with register :=
          c.register.set a (c.register.getD a 0 *
            2 ^ (c.register.getD b 0).toNat) }) ∧
    (0 ≤ c.register.getD b 0 →
      alu c "SHR" (a : Int) (some (b : Int)) =
        .ok { c with register :=
          c.register.set a (Int.fdiv (c.register.getD a 0)
            (2 ^ (c.register.getD b 0).toNat)) }) :=
  ⟨alu_ADD_char c a b ha hb, alu_MUL_char c a b ha hb,
    alu_AND_char c a b ha hb, alu_OR_char c a b ha hb,
    alu_XOR_char c a b ha hb, alu_NOT_char c a ha,
    fun hz => alu_MOD_char c a b ha hb hz,
    fun hn => alu_SHL_char c a b ha hb hn,
    fun hn => alu_SHR_char c a b ha hb hn⟩

set_option maxRecDepth 10000 in
/-- C1 (witness): the amended theorem evaluated at registers 7 and 3,
`MOD`: the result is the exact value `7 fmod 3 = 1`. -/
theorem claim_c1_witness :
    alu (testRegs 7 3) "MOD" 0 (some 1) =
      .ok { testRegs 7 3 with register := [1, 3, 0, 0, 0, 0, 0, 0xF4] } := by
  have h :=
    (claim_c1_alu_unmasked (testRegs 7 3) 0 1 (by decide)
        (by decide)).2.2.2.2.2.2.1 (by decide)
  exact h.trans rfl

/-- C2: for every executed opcode byte, when `ir & 0b00010000 == 0`
the loop adds exactly `(ir >> 6) + 1` to the program counter left by
the instruction's effect, and when that bit is set the loop performs
no auto-advance at all. -/
theorem claim_c2_pc_advance (c : CPU) (ir opa opb : Int) (running : Bool)
    (c1 : CPU)
    (hir : ram_read c c.PC = .ok ir)
    (hopa : ram_read c (c.PC + 1) = .ok opa)
    (hopb : ram_read c (c.PC + 2) = .ok opb)
    (hd : dispatch c ir opa opb = .ok (running, c1)) :
    stepBody c =
      (if running then StepOutcome.next else StepOutcome.halt)
        (advance ir c1) ∧
    (Int.land ir 0b00010000 = 0 →
      advance ir c1 = { c1 with PC := c1.PC + (pyShr ir 6 + 1) }) ∧
    (Int.land ir 0b00010000 ≠ 0 → advance ir c1 = c1) := by
  refine ⟨?_, fun h => ?_, fun h => ?_⟩
  · unfold stepBody
    simp only [hir, hopa, hopb, hd]
    cases running <;> simp
  · unfold advance; rw [if_pos h]
  · unfold advance; rw [if_neg h]

set_option maxRecDepth 10000 in
/-- C2 (witness): the theorem evaluated on the freshly constructed
machine, whose first fetched byte 0 dispatches to the fallback branch
with `running = false`, and whose advance adds `(0 >> 6) + 1 = 1`. -/
theorem claim_c2_witness :
    stepBody initCPU =
      (if false then StepOutcome.next else StepOutcome.halt)
        (advance 0 { initCPU with output := ["Invalid instruction 0"] }) ∧
    (Int.land 0 0b00010000 = 0 →
      advance 0 { initCPU with output := ["Invalid instruction 0"] } =
        { initCPU with PC := initCPU.PC + (pyShr 0 6 + 1), output := ["Invalid instruction 0"] }) ∧
    (Int.land 0 0b00010000 ≠ 0 →
      advance 0 { initCPU with output := ["Invalid instruction 0"] } =
        { initCPU with output := ["Invalid instruction 0"] }) :=
  claim_c2_pc_advance initCPU 0 0 0 false
    { initCPU with output := ["Invalid instruction 0"] } rfl rfl rfl rfl

/-- C5: CMP on any two valid register indices sets the flags register
to exactly one of the three one-bit values 4 (Less), 2 (Greater),
1 (Equal) according to the numeric ordering of the two register
values, modifying neither register; and every successful non-CMP loop
iteration leaves the flags register unchanged. -/
theorem claim_c5_cmp :
    (∀ (c : CPU) (a b : Nat), a < c.register.length →
      b < c.register.length →
      alu c "CMP" (a : Int) (some (b : Int)) =
        .ok { c with FL :=
          if c.register.getD a 0 < c.register.getD b 0 then 4
          else if c.register.getD b 0 < c.register.getD a 0 then 2
          else 1 }) ∧
    (∀ (c : CPU) (ir : Int) (c' : CPU), ram_read c c.PC = .ok ir →
      ir ≠ CMP → stepBody c = .next c' ∨ stepBody c = .halt c' →
      c'.FL = c.FL) :=
  ⟨alu_CMP_char,
    fun c ir c' hir hne hout => (stepBody_frame c ir c' hir hout).2 hne⟩

set_option maxRecDepth 10000 in
/-- C5 (witness): CMP on registers holding 1 and 2 sets the Less flag,
and the non-CMP iteration of the fresh machine leaves FL at 0. -/
theorem claim_c5_witness :
    alu (testRegs 1 2) "CMP" 0 (some 1) =
      .ok { testRegs 1 2 with FL := 4 } ∧
    ({ initCPU with PC := 1, output := ["Invalid instruction 0"] } : CPU).FL = initCPU.FL := by
  constructor
  · have h := claim_c5_cmp.1 (testRegs 1 2) 0 1 (by decide) (by decide)
    exact h.trans rfl
  · exact claim_c5_cmp.2 initCPU 0 _ rfl (by decide) (Or.inr rfl)

/-- C9: execution is deterministic — any two runs of the loop from the
same loaded program, with the same fuel, yield the same result (final
state, output and termination mode); the embedding of `CPU.run` is a
pure function of the loaded memory. -/
theorem claim_c9_deterministic (prog : List Int) (fuel : Nat)
    (r1 r2 : RunResult)
    (h1 : r1 = runLoop fuel (load prog initCPU))
    (h2 : r2 = runLoop fuel (load prog initCPU)) : r1 = r2 :=
  h1.trans h2.symm

set_option maxRecDepth 10000 in
/-- C9 (witness): two runs of the one-instruction program `HLT` both
halt in the same state. -/
theorem claim_c9_witness :
    RunResult.halted { initCPU with ram := 1 :: List.replicate 255 0, PC := 1 } =
      RunResult.halted { initCPU with ram := 1 :: List.replicate 255 0, PC := 1 } :=
  claim_c9_deterministic [1] 5 _ _ rfl rfl

/-- C10: a successful loop iteration whose fetched opcode is neither
PUSH nor CALL leaves all memory cells unchanged. -/
theorem claim_c10_memory_frame (c : CPU) (ir : Int) (c' : CPU)
    (hir : ram_read c c.PC = .ok ir)
    (hpush : ir ≠ PUSH) (hcall : ir ≠ CALL)
    (hout : stepBody c = .next c' ∨ stepBody c = .halt c') :
    c'.ram = c.ram :=
  (stepBody_frame c ir c' hir hout).1 hpush hcall

set_option maxRecDepth 10000 in
/-- C10 (witness): the fresh machine's first iteration (opcode 0,
the fallback branch) leaves memory unchanged. -/
theorem claim_c10_witness :
    ({ initCPU with PC := 1, output := ["Invalid instruction 0"] } : CPU).ram = initCPU.ram :=
  claim_c10_memory_frame initCPU 0 _ rfl (by decide) (by decide)
    (Or.inr rfl)

/-- The fallback branch of the dispatch chain: an opcode equal to none
of the twenty catalogued constants prints the diagnostic and clears
the `running` flag. -/
theorem dispatch_invalid (c : CPU) (ir opa opb : Int)
    (h1 : ir ≠ HLT) (h2 : ir ≠ LDI) (h3 : ir ≠ PRN) (h4 : ir ≠ MUL)
    (h5 : ir ≠ ADD) (h6 : ir ≠ CMP) (h7 : ir ≠ AND) (h8 : ir ≠ OR)
    (h9 : ir ≠ XOR) (h10 : ir ≠ NOT) (h11 : ir ≠ MOD) (h12 : ir ≠ SHL)
    (h13 : ir ≠ SHR) (h14 : ir ≠ PUSH) (h15 : ir ≠ POP) (h16 : ir ≠ CALL)
    (h17 : ir ≠ RET) (h18 : ir ≠ JMP) (h19 : ir ≠ JEQ) (h20 : ir ≠ JNE) :
    dispatch c ir opa opb =
      .ok (false,
        { c with output := c.output ++ [s!"Invalid instruction {ir}"] }) := by
  unfold dispatch
  rw [if_neg h1, if_neg h2, if_neg h3, if_neg h4, if_neg h5, if_neg h6,
    if_neg h7, if_neg h8, if_neg h9, if_neg h10, if_neg h11, if_neg h12,
    if_neg h13, if_neg h14, if_neg h15, if_neg h16, if_neg h17, if_neg h18,
    if_neg h19, if_neg h20]

set_option maxRecDepth 10000 in
/-- C6 (counterexample): the fresh machine's opcode byte 0 is not in
the catalog; the engine prints the diagnostic and halts, but the final
program counter is 1, not the address 0 of the unrecognized
instruction — the loop still applies the auto-advance. -/
theorem claim_c6_counterexample :
    stepBody initCPU =
      .halt { initCPU with PC := 1, output := ["Invalid instruction 0"] } ∧
    (1 : Int) ≠ 0 :=
  ⟨rfl, by decide⟩

/-- C6 (amended): an opcode byte not in the catalog makes the engine
print a diagnostic naming the byte and leave the loop (HALTED), but
the program counter is still advanced by `(ir >> 6) + 1` whenever
`ir & 0b00010000 == 0`; it stays at the unrecognized instruction's
address only when that bit is set. -/
theorem claim_c6_invalid_opcode (c : CPU) (ir opa opb : Int)
    (hir : ram_read c c.PC = .ok ir)
    (hopa : ram_read c (c.PC + 1) = .ok opa)
    (hopb : ram_read c (c.PC + 2) = .ok opb)
    (h1 : ir ≠ HLT) (h2 : ir ≠ LDI) (h3 : ir ≠ PRN) (h4 : ir ≠ MUL)
    (h5 : ir ≠ ADD) (h6 : ir ≠ CMP) (h7 : ir ≠ AND) (h8 : ir ≠ OR)
    (h9 : ir ≠ XOR) (h10 : ir ≠ NOT) (h11 : ir ≠ MOD) (h12 : ir ≠ SHL)
    (h13 : ir ≠ SHR) (h14 : ir ≠ PUSH) (h15 : ir ≠ POP) (h16 : ir ≠ CALL)
    (h17 : ir ≠ RET) (h18 : ir ≠ JMP) (h19 : ir ≠ JEQ) (h20 : ir ≠ JNE) :
    stepBody c =
      .halt (advance ir
        { c with output := c.output ++ [s!"Invalid instruction {ir}"] }) ∧
    (Int.land ir 0b00010000 = 0 →
      advance ir
          { c with output := c.output ++ [s!"Invalid instruction {ir}"] } =
        { c with PC := c.PC + (pyShr ir 6 + 1), output := c.output ++ [s!"Invalid instruction {ir}"] }) ∧
    (Int.land ir 0b00010000 ≠ 0 →
      advance ir
          { c with output := c.output ++ [s!"Invalid instruction {ir}"] } =
        { c with output := c.output ++ [s!"Invalid instruction {ir}"] }) := by
  refine ⟨?_, fun h => ?_, fun h => ?_⟩
  · unfold stepBody
    simp only [hir, hopa, hopb,
      dispatch_invalid c ir opa opb h1 h2 h3 h4 h5 h6 h7 h8 h9 h10 h11 h12
        h13 h14 h15 h16 h17 h18 h19 h20]
    rfl
  · unfold advance; rw [if_pos h]
  · unfold advance; rw [if_neg h]

set_option maxRecDepth 10000 in
/-- C6 (witness): the amended theorem evaluated on the fresh machine
(opcode byte 0): the diagnostic names the byte and the PC advances by
`(0 >> 6) + 1 = 1`. -/
theorem claim_c6_witness :
    stepBody initCPU =
      .halt (advance 0 { initCPU with output := ["Invalid instruction 0"] }) ∧
    (Int.land 0 0b00010000 = 0 →
      advance 0 { initCPU with output := ["Invalid instruction 0"] } =
        { initCPU with PC := initCPU.PC + (pyShr 0 6 + 1), output := ["Invalid instruction 0"] }) ∧
    (Int.land 0 0b00010000 ≠ 0 →
      advance 0 { initCPU with output := ["Invalid instruction 0"] } =
        { initCPU with output := ["Invalid instruction 0"] }) :=
  claim_c6_invalid_opcode initCPU 0 0 0 rfl rfl rfl
    (by decide) (by decide) (by decide) (by decide) (by decide) (by decide)
    (by decide) (by decide) (by decide) (by decide) (by decide) (by decide)
    (by decide) (by decide) (by decide) (by decide) (by decide) (by decide)
    (by decide) (by decide)

/-- C7: a MOD instruction whose divisor register holds 0 prints the
diagnostic and aborts the run fatally via `sys.exit(1)`; the machine
state at that moment is unchanged except for the printed text — in
particular the dividend register is untouched. -/
theorem claim_c7_mod_by_zero (c : CPU) (opa opb : Int)
    (hir : ram_read c c.PC = .ok MOD)
    (hopa : ram_read c (c.PC + 1) = .ok opa)
    (hopb : ram_read c (c.PC + 2) = .ok opb)
    (hz : reg_read c opb = .ok 0) :
    stepBody c =
      .fault (.sysExit 1) { c with output := c.output ++ ["Error"] } := by
  have hd : dispatch c MOD opa opb =
      .error (.sysExit 1, { c with output := c.output ++ ["Error"] }) := by
    unfold dispatch
    rw [if_neg (by decide), if_neg (by decide), if_neg (by decide),
      if_neg (by decide), if_neg (by decide), if_neg (by decide),
      if_neg (by decide), if_neg (by decide), if_neg (by decide),
      if_neg (by decide), if_pos rfl]
    rw [alu_MOD_eq]
    simp only [hz]
    simp
  unfold stepBody
  simp only [hir, hopa, hopb, hd]

set_option maxRecDepth 10000 in
/-- C7 (witness): the program `MOD r0, r1` with register 1 holding 0
aborts with the diagnostic, registers untouched. -/
theorem claim_c7_witness :
    stepBody (load [164, 0, 1] initCPU) =
      .fault (.sysExit 1)
        { load [164, 0, 1] initCPU with output := ["Error"] } :=
  claim_c7_mod_by_zero (load [164, 0, 1] initCPU) 0 1 rfl rfl rfl rfl

set_option maxRecDepth 10000 in
/-- C8 (counterexample): with the program counter at 254, the
unconditional operand read at `PC + 2 = 256` raises `IndexError` and
the run crashes — the read neither wraps modulo the memory size nor
returns 0. -/
theorem claim_c8_counterexample :
    stepBody { initCPU with PC := 254 } =
      .fault .indexError { initCPU with PC := 254 } := rfl

/-- C8 (amended): for `0 ≤ PC ≤ 253` the unconditional operand reads
at `PC + 1` and `PC + 2` stay in bounds and succeed, but for
`PC = 254` or `PC = 255` the cycle aborts with an `IndexError` fault
(the state at the fault is unchanged): the code does not define the
out-of-range reads as wrapping or as returning 0. -/
theorem claim_c8_operand_reads :
    (∀ c : CPU, c.ram.length = 256 → 0 ≤ c.PC → c.PC ≤ 253 →
      (∃ v, ram_read c (c.PC + 1) = .ok v) ∧
      (∃ v, ram_read c (c.PC + 2) = .ok v)) ∧
    (∀ c : CPU, c.ram.length = 256 → c.PC = 254 ∨ c.PC = 255 →
      stepBody c = .fault .indexError c) := by
  have hsome : ∀ (c : CPU) (i : Int), c.ram.length = 256 → 0 ≤ i →
      i < 256 → pyIndex c.ram.length i = some i.toNat := by
    intro c i hlen h1 h2
    unfold pyIndex
    rw [hlen]
    rw [if_pos ⟨h1, by exact_mod_cast h2⟩]
  have hnone : ∀ (c : CPU) (i : Int), c.ram.length = 256 → 256 ≤ i →
      pyIndex c.ram.length i = none := by
    intro c i hlen hi
    unfold pyIndex
    rw [hlen]
    rw [if_neg (by push_cast; omega), if_neg (by push_cast; omega)]
  constructor
  · intro c hlen h0 h253
    constructor
    · have hr : ram_read c (c.PC + 1) =
          .ok (c.ram.getD (c.PC + 1).toNat 0) := by
        unfold ram_read
        rw [hsome c _ hlen (by omega) (by omega)]
      exact ⟨_, hr⟩
    · have hr : ram_read c (c.PC + 2) =
          .ok (c.ram.getD (c.PC + 2).toNat 0) := by
        unfold ram_read
        rw [hsome c _ hlen (by omega) (by omega)]
      exact ⟨_, hr⟩
  · intro c hlen hpc
    unfold stepBody ram_read
    rcases hpc with h | h <;> rw [h]
    · simp only [hsome c 254 hlen (by omega) (by omega),
        hsome c (254 + 1) hlen (by omega) (by omega),
        hnone c (254 + 2) hlen (by omega)]
    · simp only [hsome c 255 hlen (by omega) (by omega),
        hnone c (255 + 1) hlen (by omega)]

/-! ### List lemmas for the stack reasoning -/

theorem getD_set_self (l : List Int) (i : Nat) (a : Int)
    (h : i < l.length) : (l.set i a).getD i 0 = a := by
  rw [List.getD_eq_getElem?_getD, List.getElem?_set_self h]
  rfl

theorem getD_set_ne (l : List Int) (i j : Nat) (a : Int) (h : i ≠ j) :
    (l.set i a).getD j 0 = l.getD j 0 := by
  rw [List.getD_eq_getElem?_getD, List.getElem?_set_ne h,
    ← List.getD_eq_getElem?_getD]

theorem set_getD_self (l : List Int) (i : Nat) (h : i < l.length) :
    l.set i (l.getD i 0) = l := by
  induction l generalizing i with
  | nil => simp at h
  | cons x xs ih =>
    cases i with
    | zero => rfl
    | succ n =>
      simp only [List.getD_cons_succ, List.set_cons_succ, List.cons.injEq,
        true_and]
      exact ih n (by simpa using h)

theorem pyIndex_some_lt (len : Nat) (i : Int) (j : Nat)
    (h : pyIndex len i = some j) : j < len := by
  unfold pyIndex at h
  split at h
  · injection h with h; omega
  · split at h
    · injection h with h; omega
    · exact Option.noConfusion h

/-! ### Equations for the stack and control-transfer branches -/

/-- A successful dispatch with `running = true` makes the loop iterate
again with the advanced state. -/
theorem stepBody_next (c : CPU) (ir opa opb : Int) (c1 : CPU)
    (hir : ram_read c c.PC = .ok ir)
    (hopa : ram_read c (c.PC + 1) = .ok opa)
    (hopb : ram_read c (c.PC + 2) = .ok opb)
    (hd : dispatch c ir opa opb = .ok (true, c1)) :
    stepBody c = .next (advance ir c1) := by
  unfold stepBody
  simp only [hir, hopa, hopb, hd]
  rfl

/-- The PUSH branch: decrement the stack pointer, then write the named
register's value to the cell it now addresses. -/
theorem dispatch_PUSH_eq (c : CPU) (r w v : Int) (j : Nat)
    (hreg : c.register.length = 8)
    (hj : pyIndex c.ram.length (getSP c - 1) = some j)
    (hv : reg_read (setSP c (getSP c - 1)) r = .ok v) :
    dispatch c PUSH r w =
      .ok (true, { c with
        ram := c.ram.set j v
        register := c.register.set 7 (getSP c - 1) }) := by
  unfold dispatch
  rw [if_neg (by decide), if_neg (by decide), if_neg (by decide),
    if_neg (by decide), if_neg (by decide), if_neg (by decide),
    if_neg (by decide), if_neg (by decide), if_neg (by decide),
    if_neg (by decide), if_neg (by decide), if_neg (by decide),
    if_neg (by decide), if_pos rfl]
  simp only [hv]
  have hsp : getSP (setSP c (getSP c - 1)) = getSP c - 1 := by
    unfold getSP setSP
    exact getD_set_self c.register 7 _ (by omega)
  rw [hsp]
  have hw : ram_write (setSP c (getSP c - 1)) v (getSP c - 1) =
      .ok { c with
        ram := c.ram.set j v
        register := c.register.set 7 (getSP c - 1) } := by
    unfold ram_write setSP
    simp only [hj]
  simp only [hw]

/-- The POP branch: read the cell the stack pointer addresses into the
named register, then increment the stack pointer (rereading register 7
after the register write, as the Python does). -/
theorem dispatch_POP_eq (c : CPU) (r w v : Int) (rn : Nat)
    (hrn : pyIndex c.register.length r = some rn)
    (hread : ram_read c (getSP c) = .ok v) :
    dispatch c POP r w =
      .ok (true, { c with register :=
        (c.register.set rn v).set 7 ((c.register.set rn v).getD 7 0 + 1) }) := by
  unfold dispatch
  rw [if_neg (by decide), if_neg (by decide), if_neg (by decide),
    if_neg (by decide), if_neg (by decide), if_neg (by decide),
    if_neg (by decide), if_neg (by decide), if_neg (by decide),
    if_neg (by decide), if_neg (by decide), if_neg (by decide),
    if_neg (by decide), if_neg (by decide), if_pos rfl]
  simp only [hread]
  have hw : reg_write c r v = .ok { c with register := c.register.set rn v } := by
    unfold reg_write
    simp only [hrn]
  simp only [hw]
  unfold setSP getSP
  rfl

/-- The CALL branch: decrement the stack pointer, write `PC + 2`
(computed from the pre-transfer PC) to the cell it addresses, then set
PC to the value in the named register. -/
theorem dispatch_CALL_eq (c : CPU) (r w target : Int) (j : Nat)
    (hreg : c.register.length = 8)
    (hj : pyIndex c.ram.length (getSP c - 1) = some j)
    (ht : reg_read { c with
      ram := c.ram.set j (c.PC + 2)
      register := c.register.set 7 (getSP c - 1) } r = .ok target) :
    dispatch c CALL r w =
      .ok (true, { c with
        ram := c.ram.set j (c.PC + 2)
        register := c.register.set 7 (getSP c - 1)
        PC := target }) := by
  unfold dispatch
  rw [if_neg (by decide), if_neg (by decide), if_neg (by decide),
    if_neg (by decide), if_neg (by decide), if_neg (by decide),
    if_neg (by decide), if_neg (by decide), if_neg (by decide),
    if_neg (by decide), if_neg (by decide), if_neg (by decide),
    if_neg (by decide), if_neg (by decide), if_neg (by decide),
    if_pos rfl]
  have hsp : getSP (setSP c (getSP c - 1)) = getSP c - 1 := by
    unfold getSP setSP
    exact getD_set_self c.register 7 _ (by omega)
  rw [hsp]
  have hw : ram_write (setSP c (getSP c - 1)) ((setSP c (getSP c - 1)).PC + 2)
      (getSP c - 1) =
      .ok { c with
        ram := c.ram.set j (c.PC + 2)
        register := c.register.set 7 (getSP c - 1) } := by
    unfold ram_write setSP
    simp only [hj]
  simp only [hw, ht]

/-- The RET branch: pop the cell the stack pointer addresses into PC,
then increment the stack pointer. -/
theorem dispatch_RET_eq (c : CPU) (opa opb addr : Int)
    (haddr : ram_read c (getSP c) = .ok addr) :
    dispatch c RET opa opb =
      .ok (true, { c with
        PC := addr
        register := c.register.set 7 (getSP c + 1) }) := by
  unfold dispatch
  rw [if_neg (by decide), if_neg (by decide), if_neg (by decide),
    if_neg (by decide), if_neg (by decide), if_neg (by decide),
    if_neg (by decide), if_neg (by decide), if_neg (by decide),
    if_neg (by decide), if_neg (by decide), if_neg (by decide),
    if_neg (by decide), if_neg (by decide), if_neg (by decide),
    if_neg (by decide), if_pos rfl]
  simp only [haddr]
  unfold setSP getSP
  rfl

/-- The auto-advance applied when bit 0b00010000 of the opcode is
clear. -/
theorem advance_bit_clear (ir : Int) (c : CPU)
    (h : Int.land ir 0b00010000 = 0) :
    advance ir c = { c with PC := c.PC + (pyShr ir 6 + 1) } := by
  unfold advance
  rw [if_pos h]

/-- C4: executing PUSH(r) and then POP(r) (both instructions fetched
as such, the stack cell in bounds) restores the whole register file,
and in particular register r and the stack pointer: push decrements
then writes, pop reads then increments, for a net change of zero. -/
theorem claim_c4_push_pop (c c1 c2 : CPU) (r v : Int) (j : Nat)
    (hreg : c.register.length = 8)
    (hr0 : 0 ≤ r) (hr8 : r < 8)
    (hir : ram_read c c.PC = .ok PUSH)
    (hopa : ram_read c (c.PC + 1) = .ok r)
    (hopb : ∃ w, ram_read c (c.PC + 2) = .ok w)
    (hj : pyIndex c.ram.length (getSP c - 1) = some j)
    (hv : reg_read (setSP c (getSP c - 1)) r = .ok v)
    (hc1 : c1 = { c with
      ram := c.ram.set j v
      register := c.register.set 7 (getSP c - 1)
      PC := c.PC + 2 })
    (hir2 : ram_read c1 c1.PC = .ok POP)
    (hopa2 : ram_read c1 (c1.PC + 1) = .ok r)
    (hopb2 : ∃ w, ram_read c1 (c1.PC + 2) = .ok w)
    (hc2 : c2 = { c1 with
      register := (c1.register.set r.toNat v).set 7
        ((c1.register.set r.toNat v).getD 7 0 + 1)
      PC := c1.PC + 2 }) :
    stepBody c = .next c1 ∧ stepBody c1 = .next c2 ∧
      c2.register = c.register ∧ getSP c2 = getSP c := by
  obtain ⟨w, hopbw⟩ := hopb
  obtain ⟨w2, hopb2w⟩ := hopb2
  have h78 : (7 : Nat) < c.register.length := by omega
  have hd1 := dispatch_PUSH_eq c r w v j hreg hj hv
  have e1 : stepBody c = .next c1 := by
    rw [stepBody_next c PUSH r w _ hir hopa hopbw hd1,
      advance_bit_clear PUSH _ (by decide), hc1]
    rfl
  have hrn : pyIndex c1.register.length r = some r.toNat := by
    have hlen1 : c1.register.length = 8 := by
      rw [hc1]
      simpa [List.length_set] using hreg
    rw [hlen1]
    unfold pyIndex
    rw [if_pos ⟨hr0, by push_cast; omega⟩]
  have hread : ram_read c1 (getSP c1) = .ok v := by
    have hsp1 : getSP c1 = getSP c - 1 := by
      rw [hc1]
      exact getD_set_self c.register 7 _ h78
    rw [hsp1, hc1]
    unfold ram_read
    have hj1 : pyIndex (c.ram.set j v).length (getSP c - 1) = some j := by
      rw [List.length_set]
      exact hj
    simp only [hj1]
    rw [getD_set_self c.ram j v (pyIndex_some_lt _ _ _ hj)]
  have hd2 := dispatch_POP_eq c1 r w2 v r.toNat hrn hread
  have e2 : stepBody c1 = .next c2 := by
    rw [stepBody_next c1 POP r w2 _ hir2 hopa2 hopb2w hd2,
      advance_bit_clear POP _ (by decide), hc2]
    rfl
  have hveq : v = (c.register.set 7 (getSP c - 1)).getD r.toNat 0 := by
    unfold reg_read setSP at hv
    have hlen' : pyIndex (c.register.set 7 (getSP c - 1)).length r =
        some r.toNat := by
      rw [List.length_set, hreg]
      unfold pyIndex
      rw [if_pos ⟨hr0, by push_cast; omega⟩]
    simp only [hlen'] at hv
    injection hv with hv
    exact hv.symm
  have hcancel : getSP c - 1 + 1 = getSP c := by ring
  have hregeq : c2.register = c.register := by
    simp only [hc2, hc1]
    by_cases hn7 : r.toNat = 7
    · rw [hn7]
      simp only [List.set_set]
      rw [getD_set_self c.register 7 v h78]
      have hv7 : v = getSP c - 1 := by
        rw [hveq, hn7]
        exact getD_set_self c.register 7 _ h78
      rw [hv7, hcancel]
      exact set_getD_self c.register 7 h78
    · have hv' : v = c.register.getD r.toNat 0 := by
        rw [hveq]
        exact getD_set_ne c.register 7 r.toNat _ (fun hh => hn7 hh.symm)
      rw [getD_set_ne _ r.toNat 7 _ hn7,
        getD_set_self c.register 7 _ h78, hcancel,
        List.set_comm v (getSP c) _ hn7, List.set_set]
      have h7 : c.register.set 7 (getSP c) = c.register :=
        set_getD_self c.register 7 h78
      rw [h7, hv']
      exact set_getD_self c.register r.toNat (by omega)
  exact ⟨e1, e2, hregeq, by unfold getSP; rw [hregeq]⟩

set_option maxRecDepth 10000 in
/-- C4 (witness): the theorem evaluated on the loaded program
`PUSH r0; POP r0; HLT`: both steps execute and the register file,
including the stack pointer, is restored. -/
theorem claim_c4_witness :
    stepBody pushPopS0 = .next pushPopS1 ∧
    stepBody pushPopS1 = .next pushPopS2 ∧
    pushPopS2.register = pushPopS0.register ∧
    getSP pushPopS2 = getSP pushPopS0 :=
  claim_c4_push_pop pushPopS0 pushPopS1 pushPopS2 0 0 243
    rfl (by decide) (by decide) rfl rfl ⟨70, rfl⟩ rfl rfl rfl rfl rfl
    ⟨1, rfl⟩ rfl

/-- The no-auto-advance case of the advance rule: instructions with
bit 0b00010000 set keep the PC the dispatch left. -/
theorem advance_bit_set (ir : Int) (c : CPU)
    (h : Int.land ir 0b00010000 ≠ 0) : advance ir c = c := by
  unfold advance
  rw [if_neg h]

/-- C3: CALL(r) pushes `PC + 2` — the address of the instruction after
the CALL and its operand, computed from the pre-transfer PC — onto the
stack and jumps to the address in register r; and from any later state
whose stack pointer and return cell are as the CALL left them
(balanced pushes and pops in between, at any nesting depth that fits),
RETURN resumes execution at `PC + 2` and restores the stack
pointer. -/
theorem claim_c3_call_ret (c c1 t : CPU) (r target : Int) (j : Nat)
    (hreg : c.register.length = 8)
    (hir : ram_read c c.PC = .ok CALL)
    (hopa : ram_read c (c.PC + 1) = .ok r)
    (hopb : ∃ w, ram_read c (c.PC + 2) = .ok w)
    (hj : pyIndex c.ram.length (getSP c - 1) = some j)
    (ht : reg_read { c with
      ram := c.ram.set j (c.PC + 2)
      register := c.register.set 7 (getSP c - 1) } r = .ok target)
    (hc1 : c1 = { c with
      ram := c.ram.set j (c.PC + 2)
      register := c.register.set 7 (getSP c - 1)
      PC := target })
    (hirt : ram_read t t.PC = .ok RET)
    (hopat : ∃ w, ram_read t (t.PC + 1) = .ok w)
    (hopbt : ∃ w, ram_read t (t.PC + 2) = .ok w)
    (htreg : t.register.length = 8)
    (hsp : getSP t = getSP c - 1)
    (hcell : ram_read t (getSP t) = .ok (c.PC + 2)) :
    stepBody c = .next c1 ∧
    c1.PC = target ∧
    getSP c1 = getSP c - 1 ∧
    c1.ram = c.ram.set j (c.PC + 2) ∧
    stepBody t = .next { t with
      PC := c.PC + 2
      register := t.register.set 7 (getSP t + 1) } ∧
    getSP { t with
      PC := c.PC + 2
      register := t.register.set 7 (getSP t + 1) } = getSP c := by
  obtain ⟨w, hopbw⟩ := hopb
  obtain ⟨wa, hopatw⟩ := hopat
  obtain ⟨wb, hopbtw⟩ := hopbt
  have h78 : (7 : Nat) < c.register.length := by omega
  have hd1 := dispatch_CALL_eq c r w target j hreg hj ht
  refine ⟨?_, ?_, ?_, ?_, ?_, ?_⟩
  · rw [stepBody_next c CALL r w _ hir hopa hopbw hd1,
      advance_bit_set CALL _ (by decide), hc1]
  · rw [hc1]
  · rw [hc1]
    exact getD_set_self c.register 7 _ h78
  · rw [hc1]
  · have hd2 := dispatch_RET_eq t wa wb (c.PC + 2) hcell
    rw [stepBody_next t RET wa wb _ hirt hopatw hopbtw hd2,
      advance_bit_set RET _ (by decide)]
  · have h1 : getSP { t with
        PC := c.PC + 2
        register := t.register.set 7 (getSP t + 1) } = getSP t + 1 :=
      getD_set_self t.register 7 _ (by omega)
    rw [h1, hsp]
    ring

set_option maxRecDepth 10000 in
/-- C3 (witness): the program `CALL r0` with register 0 holding 6 and
`RET` at address 6: the CALL pushes return address 2 and jumps to 6;
the RET then resumes at 2 with the stack pointer restored to 244. -/
theorem claim_c3_witness :
    stepBody callS0 = .next callS1 ∧
    callS1.PC = 6 ∧
    getSP callS1 = getSP callS0 - 1 ∧
    callS1.ram = callS0.ram.set 243 (callS0.PC + 2) ∧
    stepBody callS1 = .next { callS1 with
      PC := callS0.PC + 2
      register := callS1.register.set 7 (getSP callS1 + 1) } ∧
    getSP { callS1 with
      PC := callS0.PC + 2
      register := callS1.register.set 7 (getSP callS1 + 1) } =
      getSP callS0 :=
  claim_c3_call_ret callS0 callS1 callS1 0 6 243
    rfl rfl rfl ⟨0, rfl⟩ rfl rfl rfl rfl ⟨0, rfl⟩ ⟨0, rfl⟩ rfl rfl rfl
